import Mathlib

/-!
# rsps-tcp-proxy: admission control and connection handling

A shallow embedding of `ring_buffer.go`, `conn_filter.go` and the connection
handling part of `server.go`, followed by the properties proved about them.

Conventions of the embedding:

* a Go run-time panic (integer division by zero, index out of range, `make`
  with a length the runtime refuses) is the result `none`;
* `make` fails exactly when the runtime's length check fails; running out of
  physical memory below that limit depends on the machine and is not modelled;
* the fields `size`, `head` and `count` of `RingBuffer` are Go `int`s that
  are never negative in a value built by the program; they are natural
  numbers here, and every place where Go would panic is checked explicitly;
* timestamps (`int64` Unix seconds) are integers; the one subtraction the
  program performs on them (`time.Now().Unix() - 60`) wraps at 64 bits;
* `time.Now().Unix()` is an input of the operations that read the clock.
-/

namespace RspsProxy

/-! ## ring_buffer.go -/

/-- The struct `RingBuffer`: backing slice, capacity, index of the oldest slot, occupancy. -/
structure RingBuffer where
  buffer : List Int
  size : Nat
  head : Nat
  count : Nat
deriving DecidableEq, Repr

/-- Slice read `s[i]`: panics when `i` is not below `len(s)`. -/
def sliceGet (s : List Int) (i : Nat) : Option Int :=
  s[i]?

/-- Slice write `s[i] = v`: panics when `i` is not below `len(s)`. -/
def sliceSet (s : List Int) (i : Nat) (v : Int) : Option (List Int) :=
  if i < s.length then some (s.set i v) else none

/-- Go `a % b` on non-negative operands: panics when `b` is zero. -/
def goMod (a b : Nat) : Option Nat :=
  if b = 0 then none else some (a % b)

/-- The runtime constant `maxAlloc`, the largest allocation in bytes that the Go runtime accepts:
`2^48` on 64-bit platforms with 48-bit heap addresses such as linux/amd64. -/
def maxAlloc : Int := 281474976710656

/-- The constructor `NewRingBuffer(size)`. The call `make([]int64, size)` panics with
"makeslice: len out of range" when `size` is negative or when the `size * 8` bytes of the slice
exceed `maxAlloc`. -/
def NewRingBuffer (size : Int) : Option RingBuffer :=
  if size < 0 ∨ size * 8 > maxAlloc then none
  else some { buffer := List.replicate size.toNat 0, size := size.toNat, head := 0, count := 0 }

/-- The method `rb.Add(value)`. -/
def RingBuffer.Add (rb : RingBuffer) (value : Int) : Option RingBuffer := do
  let rb1 ←
    if rb.count = rb.size then do
      let h ← goMod (rb.head + 1) rb.size
      pure { rb with head := h }
    else
      pure { rb with count := rb.count + 1 }
  let i ← goMod (rb1.head + rb1.count - 1) rb1.size
  let b ← sliceSet rb1.buffer i value
  pure { rb1 with buffer := b }

/-- The method `rb.Len()`. -/
def RingBuffer.Len (rb : RingBuffer) : Nat :=
  rb.count

/-- The loop of `GetAll`: the elements at logical positions `0 .. n-1`, filled in increasing order. -/
def RingBuffer.getAllLoop (rb : RingBuffer) : Nat → Option (List Int)
  | 0 => some []
  | n + 1 => do
    let elements ← RingBuffer.getAllLoop rb n
    let i ← goMod (rb.head + n) rb.size
    let x ← sliceGet rb.buffer i
    pure (elements ++ [x])

/-- The method `rb.GetAll()`. -/
def RingBuffer.GetAll (rb : RingBuffer) : Option (List Int) :=
  RingBuffer.getAllLoop rb rb.count

/-- Calls `Add` once per timestamp, in order. -/
def RingBuffer.addAll (rb : RingBuffer) (ts : List Int) : Option RingBuffer :=
  ts.foldlM RingBuffer.Add rb

/-- The representation invariant of every ring buffer the program builds with a positive capacity. -/
def RingBuffer.WF (rb : RingBuffer) : Prop :=
  0 < rb.size ∧ rb.buffer.length = rb.size ∧ rb.head < rb.size ∧ rb.count ≤ rb.size

instance (rb : RingBuffer) : Decidable rb.WF := by
  unfold RingBuffer.WF; infer_instance

/-- The logical content of a ring buffer: the slots at positions `head, head+1, ...` taken modulo the capacity. -/
def RingBuffer.view (rb : RingBuffer) : List Int :=
  (List.range rb.count).map (fun i => rb.buffer.getD ((rb.head + i) % rb.size) 0)

/-! ## conn_filter.go -/

/-- The struct `ConnFilter`. The map `attempts` has `uint32` keys; the mutex is left out, since
every method holds it from its first to its last statement. -/
structure ConnFilter where
  maxAttempts : Int
  attempts : AList (fun _ : Nat => RingBuffer)

/-- The constructor `NewConnFilter(maxAttempts)`. -/
def NewConnFilter (maxAttempts : Int) : ConnFilter :=
  { maxAttempts := maxAttempts, attempts := ∅ }

/-- Two's complement wrap-around of an `int64` result. -/
def wrapInt64 (x : Int) : Int :=
  (x + 2 ^ 63) % 2 ^ 64 - 2 ^ 63

/-- The inner loop of `Tick`: `deleteEntry` stays true unless some timestamp is above the cutoff,
at which point the loop breaks. -/
def deleteEntry (cutoff : Int) : List Int → Bool
  | [] => true
  | t :: ts => if t > cutoff then false else deleteEntry cutoff ts

/-- The body of the outer loop of `Tick` for one map entry. -/
def tickEntry (cutoff : Int) (m : AList (fun _ : Nat => RingBuffer))
    (e : Sigma (fun _ : Nat => RingBuffer)) : Option (AList (fun _ : Nat => RingBuffer)) := do
  let ts ← e.2.GetAll
  if deleteEntry cutoff ts then pure (m.erase e.1) else pure m

/-- The method `f.Tick()`, with the value of `time.Now().Unix()` as the input `now`. -/
def ConnFilter.Tick (f : ConnFilter) (now : Int) : Option ConnFilter := do
  let cutoff := wrapInt64 (now - 60)
  let m ← f.attempts.entries.foldlM (tickEntry cutoff) f.attempts
  pure { f with attempts := m }

/-- The method `cf.RecordAndGetConnAttempts(ip)`, with the value of `time.Now().Unix()` as the
input `now`. Returns the new state and the returned count. -/
def ConnFilter.RecordAndGetConnAttempts (cf : ConnFilter) (ip : Nat) (now : Int) :
    Option (ConnFilter × Nat) := do
  let attempts ←
    match cf.attempts.lookup ip with
    | some rb => pure rb
    | none => NewRingBuffer cf.maxAttempts
  let attempts1 ← attempts.Add now
  pure ({ cf with attempts := cf.attempts.insert ip attempts1 }, attempts1.Len)

/-- A sequence of `RecordAndGetConnAttempts` calls, each given as (key, clock value); returns the
final state and, per call, the key with the returned count. -/
def ConnFilter.recordAll (cf : ConnFilter) : List (Nat × Int) → Option (ConnFilter × List (Nat × Nat))
  | [] => some (cf, [])
  | (ip, now) :: calls => do
    let (cf1, n) ← cf.RecordAndGetConnAttempts ip now
    let (cf2, res) ← ConnFilter.recordAll cf1 calls
    pure (cf2, (ip, n) :: res)

/-- The invariant of the tracker: every stored window is a well-formed ring buffer. -/
def ConnFilter.WF (cf : ConnFilter) : Prop :=
  ∀ e ∈ cf.attempts.entries, e.2.WF

instance (cf : ConnFilter) : Decidable cf.WF := by
  unfold ConnFilter.WF; infer_instance

/-- The tracker states the program can be in: built by `NewConnFilter(maxAttempts)` and changed
only by `RecordAndGetConnAttempts` and `Tick` calls that return. -/
inductive ConnFilter.Reachable (maxAttempts : Int) : ConnFilter → Prop where
  | init : ConnFilter.Reachable maxAttempts (NewConnFilter maxAttempts)
  | record (cf cf1 : ConnFilter) (ip : Nat) (now : Int) (n : Nat) :
      ConnFilter.Reachable maxAttempts cf →
      cf.RecordAndGetConnAttempts ip now = some (cf1, n) →
      ConnFilter.Reachable maxAttempts cf1
  | tick (cf cf1 : ConnFilter) (now : Int) :
      ConnFilter.Reachable maxAttempts cf →
      cf.Tick now = some cf1 →
      ConnFilter.Reachable maxAttempts cf1

/-! ## server.go -/

def BAD_SESSION_ID : Int := 10
def REJECTED_SESSION : Int := 11
def ATTEMPTS_EXCEEDED : Int := 16
def UNABLE_TO_CONNECT : Int := 8
def MALFORMED_LOGIN : Int := 27
def NO_RESPONSE : Int := 28

/-- The struct `Config`. -/
structure Config where
  BindIP : String
  BindPort : Int
  ServerIP : String
  ServerPort : Int
  MaxAttempts : Int

/-- A 4-byte IPv4 address, as `ip.To4()` returns it. -/
structure IPv4 where
  b0 : Fin 256
  b1 : Fin 256
  b2 : Fin 256
  b3 : Fin 256
deriving DecidableEq, Repr

/-- The library call `binary.BigEndian.Uint32(b)` on a 4-byte slice:
`uint32(b[3]) | uint32(b[2])<<8 | uint32(b[1])<<16 | uint32(b[0])<<24`. -/
def BigEndianUint32 (a : IPv4) : Nat :=
  a.b3.val ||| a.b2.val <<< 8 ||| a.b1.val <<< 16 ||| a.b0.val <<< 24

/-- The observable actions of a connection handler, in program order. -/
inductive Event where
  | statsIncrementConnectionsOpened
  | clientRead
  | clientWrite (bytes : List Nat)
  | sleep
  | clientClose
  | dial
  | statsIncrementConnections
  | serverWrite (bytes : List Nat)
  | serverFlush
  | serverClose
  | cancel
  | statsDecrementConnections
  | goReceiveAndWrite (isClient : Bool)
deriving DecidableEq, Repr

/-- The Go conversion `byte(x)` of an `int`: the low 8 bits. -/
def byte (x : Int) : Nat :=
  (x % 256).toNat

/-- The function `writeError(conn, errorCode)`. -/
def writeError (errorCode : Int) : List Event :=
  [Event.clientWrite [byte errorCode], Event.sleep, Event.clientClose]

/-- What `clientReader.Read(buffer)` returns: an error, or the `n` bytes it stored at the start of
the buffer (`n` is at most the buffer length, 10). -/
inductive ReadResult where
  | error
  | ok (data : List Nat)
deriving DecidableEq, Repr

/-- The outcomes of the library and network calls made while one connection is handled. -/
structure Env where
  /-- The library call `IP.String()` on a 4-byte address. -/
  ipString : IPv4 → String
  /-- The library call `net.ParseIP(s)` followed by `To4()`; `none` when either is nil. -/
  parseIPv4 : String → Option IPv4
  /-- The result of the first `clientReader.Read(buffer)`. -/
  firstRead : ReadResult
  /-- Whether `connectToServer` returned without error. -/
  dialOk : Bool
  /-- Whether `serverWriter.Write(byteSlice)` returned without error. -/
  serverWriteOk : Bool

/-- The 10-byte buffer of `handleRequest` after the first read stored `data` in it. -/
def bufferAfterRead (data : List Nat) : List Nat :=
  data ++ List.replicate (10 - data.length) 0

/-- The first invocation of `closeConnections`: the body guarded by `closeOnce`. -/
def closeConnectionsFirst : List Event :=
  [Event.clientClose, Event.serverClose, Event.cancel, Event.statsDecrementConnections]

/-- The function `handleRequest(conn, playerIP, serverIP, serverPort)`: its actions up to the point
where the two `receiveAndWrite` goroutines are started. -/
def handleRequest (env : Env) (playerIP : String) : List Event :=
  [Event.statsIncrementConnectionsOpened, Event.clientRead] ++
  match env.firstRead with
  | ReadResult.error => writeError REJECTED_SESSION
  | ReadResult.ok data =>
    let buffer := bufferAfterRead data
    let n := data.length
    if n > 1 then writeError MALFORMED_LOGIN
    else if buffer.getD 0 0 ≠ 14 then writeError MALFORMED_LOGIN
    else
      match env.parseIPv4 playerIP with
      | none => writeError REJECTED_SESSION
      | some ipv4 =>
        let byteSlice := [ipv4.b0.val, ipv4.b1.val, ipv4.b2.val, ipv4.b3.val] ++ buffer.take 1
        Event.dial ::
        if env.dialOk = false then writeError NO_RESPONSE
        else
          [Event.statsIncrementConnections, Event.serverWrite byteSlice] ++
          if env.serverWriteOk = false then closeConnectionsFirst
          else [Event.serverFlush, Event.goReceiveAndWrite true, Event.goReceiveAndWrite false]

/-- The function `handleNewConnection(conn, config)` on the global `connFilter`. The input
`remote` is the result of `ip.To4()` on the remote address, `none` when it is nil; `now` is the
clock value read by `RecordAndGetConnAttempts`. -/
def handleNewConnection (cf : ConnFilter) (config : Config) (remote : Option IPv4) (now : Int)
    (env : Env) : Option (ConnFilter × List Event) :=
  match remote with
  | none => some (cf, writeError REJECTED_SESSION)
  | some ipv4 => do
    let ipId := BigEndianUint32 ipv4
    let (cf1, attempts) ← cf.RecordAndGetConnAttempts ipId now
    if (attempts : Int) ≥ config.MaxAttempts then
      pure (cf1, writeError ATTEMPTS_EXCEEDED)
    else
      pure (cf1, handleRequest env (env.ipString ipv4))

/-- One accepted connection: the result of `To4` on its remote address, the clock value at its
`RecordAndGetConnAttempts` call, and the outcomes of its library and network calls. -/
structure Conn where
  remote : Option IPv4
  now : Int
  env : Env

/-- The accept loop of `main` on a sequence of connections, taken in the order in which their
handlers enter `RecordAndGetConnAttempts`; returns the actions of each handler. -/
def serve (cf : ConnFilter) (config : Config) : List Conn → Option (ConnFilter × List (List Event))
  | [] => some (cf, [])
  | c :: cs => do
    let (cf1, evs) ← handleNewConnection cf config c.remote c.now c.env
    let (cf2, rest) ← serve cf1 config cs
    pure (cf2, evs :: rest)

/-! ## Example inputs -/

/-- The address 10.0.0.1. -/
def exampleAddr : IPv4 :=
  { b0 := 10, b1 := 0, b2 := 0, b3 := 1 }

/-- A configuration with `MAX_ATTEMPTS=3`. -/
def exampleConfig : Config :=
  { BindIP := "0.0.0.0", BindPort := 43594, ServerIP := "127.0.0.1", ServerPort := 43595,
    MaxAttempts := 3 }

/-- A client at 10.0.0.1 that sends the single handshake byte 14 while the backend is down. -/
def exampleEnv : Env :=
  { ipString := fun _ => "10.0.0.1"
    parseIPv4 := fun _ => some exampleAddr
    firstRead := ReadResult.ok [14]
    dialOk := false
    serverWriteOk := true }

/-- A connection of that client. -/
def exampleConn : Conn :=
  { remote := some exampleAddr, now := 1700000000, env := exampleEnv }

/-- A tracker of capacity 3 with two keys: key 7 has a full window whose two oldest timestamps are
stale at time 1030 and whose newest is recent; key 9 has a single stale timestamp. -/
def exampleFilter : ConnFilter :=
  { maxAttempts := 3
    attempts :=
      AList.insert 7 { buffer := [1000, 10, 20], size := 3, head := 1, count := 3 }
        (AList.insert 9 { buffer := [5, 0, 0], size := 3, head := 0, count := 1 } ∅) }

/-! ## Properties of the ring buffer -/

theorem mod_of_lt_two_mul (x s : Nat) (h : x < 2 * s) :
    x % s = if x < s then x else x - s := by
  split
  · exact Nat.mod_eq_of_lt (by assumption)
  · rw [Nat.mod_eq_sub_mod (by omega)]
    exact Nat.mod_eq_of_lt (by omega)

theorem RingBuffer.getAllLoop_eq (rb : RingBuffer) (hs : 0 < rb.size)
    (hlen : rb.buffer.length = rb.size) (n : Nat) :
    rb.getAllLoop n
      = some ((List.range n).map (fun i => rb.buffer.getD ((rb.head + i) % rb.size) 0)) := by
  induction n with
  | zero => rfl
  | succ n ih =>
    have hlt : (rb.head + n) % rb.size < rb.buffer.length := by
      rw [hlen]; exact Nat.mod_lt _ hs
    simp only [RingBuffer.getAllLoop, ih, goMod, sliceGet, Nat.ne_of_gt hs, if_false,
      Option.bind_eq_bind, Option.some_bind, List.range_succ, List.map_append, List.map_cons,
      List.map_nil]
    rw [List.getElem?_eq_getElem hlt]
    simp [List.getD_eq_getElem?_getD, List.getElem?_eq_getElem hlt]

theorem RingBuffer.GetAll_eq_view (rb : RingBuffer) (h : rb.WF) :
    rb.GetAll = some rb.view :=
  RingBuffer.getAllLoop_eq rb h.1 h.2.1 rb.count

theorem RingBuffer.length_view (rb : RingBuffer) : rb.view.length = rb.count := by
  simp [RingBuffer.view]

theorem getD_set_zero (l : List Int) (j k : Nat) (v : Int) (hj : j < l.length) :
    (l.set j v).getD k 0 = if j = k then v else l.getD k 0 := by
  simp only [List.getD_eq_getElem?_getD, List.getElem?_set]
  split
  · simp [hj]
  · rfl

/-- What `Add` does to a well-formed ring buffer, below capacity. -/
theorem RingBuffer.Add_of_lt (rb : RingBuffer) (v : Int) (h : rb.WF) (hc : rb.count < rb.size) :
    rb.Add v = some { rb with count := rb.count + 1,
                              buffer := rb.buffer.set ((rb.head + rb.count) % rb.size) v } := by
  obtain ⟨hs, hlen, hh, hcs⟩ := h
  have hlt : (rb.head + rb.count) % rb.size < rb.buffer.length := by
    rw [hlen]; exact Nat.mod_lt _ hs
  simp [RingBuffer.Add, goMod, sliceSet, Nat.ne_of_lt hc, Nat.ne_of_gt hs, hlt]

/-- What `Add` does to a well-formed ring buffer, at capacity. -/
theorem RingBuffer.Add_of_eq (rb : RingBuffer) (v : Int) (h : rb.WF) (hc : rb.count = rb.size) :
    rb.Add v = some { rb with head := (rb.head + 1) % rb.size,
                              buffer := rb.buffer.set rb.head v } := by
  obtain ⟨hs, hlen, hh, hcs⟩ := h
  have h1 : ((rb.head + 1) % rb.size + rb.size - 1) % rb.size = rb.head := by
    rw [mod_of_lt_two_mul (rb.head + 1) rb.size (by omega)]
    split
    · rw [mod_of_lt_two_mul _ rb.size (by omega)]
      split <;> omega
    · rw [mod_of_lt_two_mul _ rb.size (by omega)]
      split <;> omega
  have hlt : rb.head < rb.buffer.length := by omega
  simp [RingBuffer.Add, goMod, sliceSet, hc, Nat.ne_of_gt hs, h1, hlt]

theorem mod_add_ne (h s i c : Nat) (hh : h < s) (hi : i < c) (hc : c < s) :
    (h + c) % s ≠ (h + i) % s := by
  rw [mod_of_lt_two_mul (h + c) s (by omega), mod_of_lt_two_mul (h + i) s (by omega)]
  split <;> split <;> omega

/-- Below capacity, `Add` appends to the logical content. -/
theorem RingBuffer.view_Add_of_lt (rb : RingBuffer) (v : Int) (h : rb.WF) (hc : rb.count < rb.size) :
    ∃ rb', rb.Add v = some rb' ∧ rb'.WF ∧ rb'.size = rb.size ∧ rb'.view = rb.view ++ [v] := by
  refine ⟨_, RingBuffer.Add_of_lt rb v h hc, ?_, rfl, ?_⟩
  · obtain ⟨hs, hlen, hh, hcs⟩ := h
    exact ⟨hs, by simpa using hlen, hh, hc⟩
  · obtain ⟨hs, hlen, hh, hcs⟩ := h
    have hlt : (rb.head + rb.count) % rb.size < rb.buffer.length := by
      rw [hlen]; exact Nat.mod_lt _ hs
    simp only [RingBuffer.view, List.range_succ, List.map_append, List.map_cons, List.map_nil]
    congr 1
    · apply List.map_congr_left
      intro i hi
      rw [getD_set_zero _ _ _ _ hlt, if_neg]
      exact mod_add_ne _ _ _ _ hh (List.mem_range.mp hi) hc
    · rw [getD_set_zero _ _ _ _ hlt, if_pos rfl]

/-- At capacity, `Add` drops the oldest element of the logical content and appends the new one. -/
theorem RingBuffer.view_Add_of_eq (rb : RingBuffer) (v : Int) (h : rb.WF) (hc : rb.count = rb.size) :
    ∃ rb', rb.Add v = some rb' ∧ rb'.WF ∧ rb'.size = rb.size ∧ rb'.view = rb.view.tail ++ [v] := by
  refine ⟨_, RingBuffer.Add_of_eq rb v h hc, ?_, rfl, ?_⟩
  · obtain ⟨hs, hlen, hh, hcs⟩ := h
    exact ⟨hs, by simpa using hlen, Nat.mod_lt _ hs, hcs⟩
  · obtain ⟨hs, hlen, hh, hcs⟩ := h
    have hlt : rb.head < rb.buffer.length := by omega
    apply List.ext_getElem
    · simp [RingBuffer.view]; omega
    · intro i h1 h2
      simp only [RingBuffer.view, List.length_map, List.length_range] at h1
      simp only [RingBuffer.view, List.getElem_map, List.getElem_range, Nat.mod_add_mod,
        getD_set_zero _ _ _ _ hlt]
      by_cases hi : i + 1 < rb.size
      · rw [List.getElem_append_left (by simp; omega)]
        simp only [List.getElem_tail, List.getElem_map, List.getElem_range]
        rw [if_neg]
        · congr 2; omega
        · rw [mod_of_lt_two_mul _ rb.size (by omega)]
          split <;> omega
      · rw [List.getElem_append_right (by simp; omega)]
        rw [if_pos]
        · simp
        · rw [mod_of_lt_two_mul _ rb.size (by omega)]
          split <;> omega

/-- One `Add` on a well-formed ring buffer: it succeeds, keeps the invariant, and the logical
content becomes the old content followed by the new value, cut to the last `size` elements. -/
theorem RingBuffer.Add_spec (rb : RingBuffer) (v : Int) (h : rb.WF) :
    ∃ rb', rb.Add v = some rb' ∧ rb'.WF ∧ rb'.size = rb.size ∧
      rb'.view = (rb.view ++ [v]).drop (rb.count + 1 - rb.size) := by
  by_cases hc : rb.count < rb.size
  · obtain ⟨rb', h1, h2, h3, h4⟩ := RingBuffer.view_Add_of_lt rb v h hc
    refine ⟨rb', h1, h2, h3, ?_⟩
    rw [h4, show rb.count + 1 - rb.size = 0 by omega, List.drop_zero]
  · have hc' : rb.count = rb.size := Nat.le_antisymm h.2.2.2 (Nat.le_of_not_lt hc)
    obtain ⟨rb', h1, h2, h3, h4⟩ := RingBuffer.view_Add_of_eq rb v h hc'
    refine ⟨rb', h1, h2, h3, ?_⟩
    rw [h4, show rb.count + 1 - rb.size = 1 by omega]
    have hne : rb.view ≠ [] := by
      intro h0
      have := RingBuffer.length_view rb
      rw [h0] at this
      have hs := h.1
      simp at this
      omega
    cases hv : rb.view with
    | nil => exact absurd hv hne
    | cons a l => simp

/-- Any number of `Add` calls on a well-formed ring buffer: they all succeed, and the logical
content is the last `size` elements of the old content followed by the new values. -/
theorem RingBuffer.addAll_spec (ts : List Int) :
    ∀ rb : RingBuffer, rb.WF →
      ∃ rb', rb.addAll ts = some rb' ∧ rb'.WF ∧ rb'.size = rb.size ∧
        rb'.view = (rb.view ++ ts).drop (rb.count + ts.length - rb.size) := by
  induction ts with
  | nil =>
    intro rb h
    refine ⟨rb, rfl, h, rfl, ?_⟩
    have := h.2.2.2
    simp [show rb.count - rb.size = 0 by omega]
  | cons t ts ih =>
    intro rb h
    obtain ⟨rb1, h1, hwf1, hs1, hv1⟩ := RingBuffer.Add_spec rb t h
    obtain ⟨rb2, h2, hwf2, hs2, hv2⟩ := ih rb1 hwf1
    refine ⟨rb2, ?_, hwf2, hs2.trans hs1, ?_⟩
    · simp only [RingBuffer.addAll, List.foldlM_cons, h1, Option.bind_eq_bind, Option.some_bind]
      exact h2
    · have hc1 : rb1.count = rb.count + 1 - (rb.count + 1 - rb.size) := by
        have := RingBuffer.length_view rb1
        rw [hv1] at this
        simp [RingBuffer.length_view] at this
        omega
      have hle : rb.count + 1 - rb.size ≤ (rb.view ++ [t]).length := by
        simp [RingBuffer.length_view]
      rw [hv2, hv1, hs1, ← List.drop_append_of_le_length hle, List.append_assoc, List.drop_drop]
      simp only [List.singleton_append, List.length_cons]
      congr 1
      have := h.2.2.2
      omega

theorem maxAlloc_eq : maxAlloc = 2 ^ 48 := by
  decide

theorem NewRingBuffer_pos (N : Nat) (hN : 1 ≤ N) (hcap : (N : Int) * 8 ≤ maxAlloc) :
    ∃ rb, NewRingBuffer (N : Int) = some rb ∧ rb.WF ∧ rb.size = N ∧ rb.count = 0 := by
  refine ⟨{ buffer := List.replicate N 0, size := N, head := 0, count := 0 }, ?_, ?_, rfl, rfl⟩
  · have hc : ¬ ((N : Int) < 0 ∨ (N : Int) * 8 > maxAlloc) := by omega
    rw [NewRingBuffer, if_neg hc]
    simp
  · exact ⟨hN, by simp, hN, Nat.zero_le _⟩

/-- C1, as amended. Ring overwrite correctness: for every capacity `N >= 1` whose `N * 8`
bytes do not exceed `maxAlloc` (`N <= 2^45` on linux/amd64) and every sequence of timestamps
added one by one to a fresh `NewRingBuffer(N)`, the constructor and every `Add` succeed and
`GetAll` returns exactly the last `min k N` elements of the sequence, oldest first; when `k > N`
these are the `N` most recent timestamps. -/
theorem ring_overwrite_correctness (N : Nat) (hN : 1 ≤ N) (hcap : (N : Int) * 8 ≤ maxAlloc)
    (ts : List Int) :
    ∃ rb0 rb, NewRingBuffer (N : Int) = some rb0 ∧ rb0.addAll ts = some rb ∧
      rb.GetAll = some (ts.drop (ts.length - min ts.length N)) ∧
      (ts.drop (ts.length - min ts.length N)).length = min ts.length N ∧
      (N < ts.length →
        rb.GetAll = some (ts.drop (ts.length - N)) ∧ (ts.drop (ts.length - N)).length = N) := by
  obtain ⟨rb0, hnew, hwf0, hs0, hc0⟩ := NewRingBuffer_pos N hN hcap
  obtain ⟨rb, hadd, hwf, hs, hv⟩ := RingBuffer.addAll_spec ts rb0 hwf0
  have hv0 : rb0.view = [] := by
    have := RingBuffer.length_view rb0
    rw [hc0] at this
    exact List.eq_nil_of_length_eq_zero this
  have hget : rb.GetAll = some (ts.drop (ts.length - N)) := by
    rw [RingBuffer.GetAll_eq_view rb hwf, hv, hv0, hc0, hs0]
    simp
  have hidx : ts.length - min ts.length N = ts.length - N := by omega
  refine ⟨rb0, rb, hnew, hadd, ?_, ?_, ?_⟩
  · rw [hidx]; exact hget
  · rw [List.length_drop]; omega
  · intro hk
    exact ⟨hget, by rw [List.length_drop]; omega⟩

/-- C1, counterexample. With the capacity `N = 10^14` the constructor panics in `make`
(800 TB exceed `maxAlloc`), so no ring buffer exists on which adding the timestamp 7 could make
`GetAll` return `[7]`. -/
theorem ring_overwrite_capacity_too_large :
    NewRingBuffer 100000000000000 = none ∧
      ¬ ∃ rb0 rb, NewRingBuffer 100000000000000 = some rb0 ∧ rb0.addAll [7] = some rb ∧
          rb.GetAll = some [7] := by
  have h : NewRingBuffer 100000000000000 = none := by decide
  refine ⟨h, ?_⟩
  rintro ⟨rb0, rb, h0, _, _⟩
  rw [h] at h0
  cases h0

/-- C9. With capacity 0 the constructor succeeds and the first `Add` fails on the modulo by
zero; `RecordAndGetConnAttempts` on a tracker built with `NewConnFilter(0)` fails the same way. -/
theorem add_fails_on_capacity_zero (t : Int) (ip : Nat) :
    (∃ rb, NewRingBuffer 0 = some rb ∧ rb.count ≤ rb.size ∧ rb.Add t = none) ∧
      (NewConnFilter 0).RecordAndGetConnAttempts ip t = none := by
  refine ⟨⟨{ buffer := [], size := 0, head := 0, count := 0 }, rfl, Nat.le_refl _, rfl⟩, ?_⟩
  simp [ConnFilter.RecordAndGetConnAttempts, NewConnFilter, NewRingBuffer, RingBuffer.Add, goMod,
    maxAlloc]

/-! ## Properties of the attempt tracker -/

theorem ConnFilter.WF_iff_lookup (cf : ConnFilter) :
    cf.WF ↔ ∀ k rb, cf.attempts.lookup k = some rb → rb.WF := by
  constructor
  · intro h k rb hk
    exact h ⟨k, rb⟩ (AList.mem_lookup_iff.mp hk)
  · intro h e he
    exact h e.1 e.2 (AList.mem_lookup_iff.mpr he)

theorem deleteEntry_iff (cutoff : Int) (ts : List Int) :
    deleteEntry cutoff ts = true ↔ ∀ t ∈ ts, t ≤ cutoff := by
  induction ts with
  | nil => simp [deleteEntry]
  | cons t ts ih =>
    by_cases h : t > cutoff
    · simp only [deleteEntry, h, if_true, List.mem_cons, forall_eq_or_imp]
      constructor
      · intro h0; cases h0
      · intro h0; omega
    · simp only [deleteEntry, h, if_false, List.mem_cons, forall_eq_or_imp, ih]
      constructor
      · intro h0; exact ⟨by omega, h0⟩
      · intro h0; exact h0.2

theorem wrapInt64_sub (now : Int) (h1 : -2 ^ 63 + 60 ≤ now) (h2 : now < 2 ^ 63) :
    wrapInt64 (now - 60) = now - 60 := by
  unfold wrapInt64
  omega

/-- The outer loop of `Tick` over a list of well-formed entries: it completes, removes exactly
the keys of the visited entries whose timestamps are all at or below the cutoff, and leaves every
other key as it was. -/
theorem tick_fold (cutoff : Int) (es : List (Sigma (fun _ : Nat => RingBuffer))) :
    ∀ m : AList (fun _ : Nat => RingBuffer), (∀ e ∈ es, e.2.WF) →
      ∃ m', es.foldlM (tickEntry cutoff) m = some m' ∧
        (∀ k, (∃ e ∈ es, e.1 = k ∧ deleteEntry cutoff e.2.view = true) → m'.lookup k = none) ∧
        (∀ k, (¬ ∃ e ∈ es, e.1 = k ∧ deleteEntry cutoff e.2.view = true) →
          m'.lookup k = m.lookup k) := by
  induction es with
  | nil =>
    intro m _
    exact ⟨m, rfl, by simp, by simp⟩
  | cons e es ih =>
    intro m hwf
    have he : e.2.WF := hwf e (List.mem_cons_self _ _)
    have hes : ∀ e' ∈ es, e'.2.WF := fun e' h' => hwf e' (List.mem_cons_of_mem _ h')
    have hstep : tickEntry cutoff m e
        = some (if deleteEntry cutoff e.2.view = true then m.erase e.1 else m) := by
      simp only [tickEntry, RingBuffer.GetAll_eq_view _ he, Option.bind_eq_bind, Option.some_bind]
      split <;> rfl
    obtain ⟨m', hm', hdel, hkeep⟩ :=
      ih (if deleteEntry cutoff e.2.view = true then m.erase e.1 else m) hes
    refine ⟨m', ?_, ?_, ?_⟩
    · simp only [List.foldlM_cons, hstep, Option.bind_eq_bind, Option.some_bind]
      exact hm'
    · intro k hk
      by_cases hin : ∃ e' ∈ es, e'.1 = k ∧ deleteEntry cutoff e'.2.view = true
      · exact hdel k hin
      · rw [hkeep k hin]
        obtain ⟨e', he', hk', hd'⟩ := hk
        rcases List.mem_cons.mp he' with h0 | h0
        · subst h0
          rw [if_pos hd', hk']
          exact AList.lookup_erase k m
        · exact absurd ⟨e', h0, hk', hd'⟩ hin
    · intro k hk
      have hin : ¬ ∃ e' ∈ es, e'.1 = k ∧ deleteEntry cutoff e'.2.view = true := by
        rintro ⟨e', he', h'⟩
        exact hk ⟨e', List.mem_cons_of_mem _ he', h'⟩
      rw [hkeep k hin]
      split
      · rename_i hd
        have hne : k ≠ e.1 := by
          intro h0
          exact hk ⟨e, List.mem_cons_self _ _, h0.symm, hd⟩
        exact AList.lookup_erase_ne hne
      · rfl

/-- One `Add` on a well-formed ring buffer raises the occupancy by one, up to the capacity. -/
theorem RingBuffer.Add_count (rb : RingBuffer) (v : Int) (h : rb.WF) :
    ∃ rb', rb.Add v = some rb' ∧ rb'.WF ∧ rb'.size = rb.size ∧
      rb'.count = min (rb.count + 1) rb.size := by
  by_cases hc : rb.count < rb.size
  · obtain ⟨rb', h1, h2, h3, _⟩ := RingBuffer.view_Add_of_lt rb v h hc
    refine ⟨rb', h1, h2, h3, ?_⟩
    rw [RingBuffer.Add_of_lt rb v h hc] at h1
    cases h1
    simp only
    omega
  · have hc' : rb.count = rb.size := Nat.le_antisymm h.2.2.2 (Nat.le_of_not_lt hc)
    obtain ⟨rb', h1, h2, h3, _⟩ := RingBuffer.view_Add_of_eq rb v h hc'
    refine ⟨rb', h1, h2, h3, ?_⟩
    rw [RingBuffer.Add_of_eq rb v h hc'] at h1
    cases h1
    simp only
    omega

theorem ConnFilter.WF_insert (cf : ConnFilter) (ip : Nat) (rb : RingBuffer) (hwf : cf.WF)
    (hrb : rb.WF) : ConnFilter.WF { cf with attempts := cf.attempts.insert ip rb } := by
  rw [ConnFilter.WF_iff_lookup] at hwf ⊢
  intro k rb' hk
  simp only at hk
  by_cases hki : k = ip
  · subst hki
    rw [AList.lookup_insert] at hk
    cases hk
    exact hrb
  · rw [AList.lookup_insert_ne hki] at hk
    exact hwf k rb' hk

/-- With a capacity of at least 1 that `make` accepts, `Add` succeeds on every ring buffer
obtained from `NewRingBuffer` by `Add` calls, and leaves the occupancy within the capacity. -/
theorem RingBuffer.Add_succeeds_of_pos (N : Nat) (hN : 1 ≤ N)
    (hcap : (N : Int) * 8 ≤ maxAlloc) (ts : List Int) (t : Int) :
    ∃ rb0 rb rb', NewRingBuffer (N : Int) = some rb0 ∧ rb0.addAll ts = some rb ∧
      rb.Add t = some rb' ∧ rb'.count ≤ rb'.size := by
  obtain ⟨rb0, hnew, hwf0, _, _⟩ := NewRingBuffer_pos N hN hcap
  obtain ⟨rb, hadd, hwf, _, _⟩ := RingBuffer.addAll_spec ts rb0 hwf0
  obtain ⟨rb', h1, h2, _, _⟩ := RingBuffer.Add_count rb t hwf
  exact ⟨rb0, rb, rb', hnew, hadd, h1, h2.2.2.2⟩

theorem NewConnFilter_WF (maxAttempts : Int) : (NewConnFilter maxAttempts).WF := by
  intro e he
  simp [NewConnFilter] at he

/-- A `RecordAndGetConnAttempts` call that returns keeps the invariant, whatever the capacity. -/
theorem ConnFilter.WF_of_record (cf cf1 : ConnFilter) (ip : Nat) (now : Int) (n : Nat)
    (hwf : cf.WF) (h : cf.RecordAndGetConnAttempts ip now = some (cf1, n)) :
    cf1.WF ∧ cf1.maxAttempts = cf.maxAttempts := by
  unfold ConnFilter.RecordAndGetConnAttempts at h
  cases hl : cf.attempts.lookup ip with
  | some rb =>
    have hrb : rb.WF := (ConnFilter.WF_iff_lookup cf).mp hwf ip rb hl
    obtain ⟨rb', h1, h2, _, _⟩ := RingBuffer.Add_count rb now hrb
    simp only [hl, Option.pure_def, Option.bind_eq_bind, Option.some_bind, h1, Option.some.injEq,
      Prod.mk.injEq] at h
    rw [← h.1]
    exact ⟨ConnFilter.WF_insert cf ip rb' hwf h2, rfl⟩
  | none =>
    simp only [hl, Option.bind_eq_bind] at h
    by_cases hneg : cf.maxAttempts < 0 ∨ cf.maxAttempts * 8 > maxAlloc
    · simp [NewRingBuffer, hneg] at h
    · by_cases hzero : cf.maxAttempts.toNat = 0
      · simp [NewRingBuffer, hneg, RingBuffer.Add, goMod, hzero] at h
      · have hpos : 1 ≤ cf.maxAttempts.toNat := Nat.one_le_iff_ne_zero.mpr hzero
        have hnn : (cf.maxAttempts.toNat : Int) = cf.maxAttempts :=
          Int.toNat_of_nonneg (by omega)
        obtain ⟨rb0, hnew, hwf0, _, _⟩ :=
          NewRingBuffer_pos cf.maxAttempts.toNat hpos (by rw [hnn]; omega)
        rw [hnn] at hnew
        obtain ⟨rb', h1, h2, _, _⟩ := RingBuffer.Add_count rb0 now hwf0
        simp only [hnew, Option.some_bind, h1, Option.pure_def, Option.some.injEq,
          Prod.mk.injEq] at h
        rw [← h.1]
        exact ⟨ConnFilter.WF_insert cf ip rb' hwf h2, rfl⟩

/-- A `Tick` call that returns keeps the invariant. -/
theorem ConnFilter.WF_of_tick (cf cf1 : ConnFilter) (now : Int) (hwf : cf.WF)
    (h : cf.Tick now = some cf1) : cf1.WF ∧ cf1.maxAttempts = cf.maxAttempts := by
  obtain ⟨m', hm', hdel, hkeep⟩ :=
    tick_fold (wrapInt64 (now - 60)) cf.attempts.entries cf.attempts hwf
  simp only [ConnFilter.Tick, hm', Option.bind_eq_bind, Option.some_bind, Option.pure_def,
    Option.some.injEq] at h
  rw [← h]
  refine ⟨?_, rfl⟩
  rw [ConnFilter.WF_iff_lookup] at hwf ⊢
  intro k rb hk
  simp only at hk
  by_cases hex : ∃ e ∈ cf.attempts.entries,
      e.1 = k ∧ deleteEntry (wrapInt64 (now - 60)) e.2.view = true
  · rw [hdel k hex] at hk
    cases hk
  · rw [hkeep k hex] at hk
    exact hwf k rb hk

/-- Every tracker state the program can be in satisfies the invariant and keeps the capacity it
was built with. -/
theorem ConnFilter.WF_of_reachable (maxAttempts : Int) (cf : ConnFilter)
    (h : ConnFilter.Reachable maxAttempts cf) : cf.WF ∧ cf.maxAttempts = maxAttempts := by
  induction h with
  | init => exact ⟨NewConnFilter_WF maxAttempts, rfl⟩
  | record cf cf1 ip now n _ hrec ih =>
    obtain ⟨h1, h2⟩ := ConnFilter.WF_of_record cf cf1 ip now n ih.1 hrec
    exact ⟨h1, h2.trans ih.2⟩
  | tick cf cf1 now _ htick ih =>
    obtain ⟨h1, h2⟩ := ConnFilter.WF_of_tick cf cf1 now ih.1 htick
    exact ⟨h1, h2.trans ih.2⟩

/-- C3. Sweep eviction is exact: on every well-formed tracker state and for every 64-bit clock
value `now` (for which `now - 60` does not overflow), `Tick` completes; a key tracked before is
absent afterwards if and only if every timestamp stored in its window is at most `now - 60`; a key
with some timestamp above `now - 60` keeps its window, whatever its occupancy; and `Tick` never
adds a key. -/
theorem tick_eviction_exact (cf : ConnFilter) (now : Int) (hwf : cf.WF)
    (hlo : -2 ^ 63 + 60 ≤ now) (hhi : now < 2 ^ 63) :
    ∃ cf', cf.Tick now = some cf' ∧
      (∀ ip rb, cf.attempts.lookup ip = some rb →
        ∃ ts, rb.GetAll = some ts ∧
          (cf'.attempts.lookup ip = none ↔ ∀ t ∈ ts, t ≤ now - 60) ∧
          ((∃ t ∈ ts, t > now - 60) → cf'.attempts.lookup ip = some rb)) ∧
      (∀ ip, cf.attempts.lookup ip = none → cf'.attempts.lookup ip = none) := by
  obtain ⟨m', hm', hdel, hkeep⟩ := tick_fold (now - 60) cf.attempts.entries cf.attempts hwf
  have huniq : ∀ ip rb, cf.attempts.lookup ip = some rb →
      ((∃ e ∈ cf.attempts.entries, e.1 = ip ∧ deleteEntry (now - 60) e.2.view = true)
        ↔ deleteEntry (now - 60) rb.view = true) := by
    intro ip rb hrb
    constructor
    · rintro ⟨⟨k, v⟩, he, hk, hd⟩
      simp only at hk
      subst hk
      have hv : cf.attempts.lookup k = some v := AList.mem_lookup_iff.mpr he
      rw [hrb] at hv
      cases hv
      exact hd
    · intro hd
      exact ⟨⟨ip, rb⟩, AList.mem_lookup_iff.mp hrb, rfl, hd⟩
  refine ⟨{ cf with attempts := m' }, ?_, ?_, ?_⟩
  · simp only [ConnFilter.Tick, wrapInt64_sub now hlo hhi, hm', Option.bind_eq_bind,
      Option.some_bind]
    rfl
  · intro ip rb hrb
    have hrbwf : rb.WF := (ConnFilter.WF_iff_lookup cf).mp hwf ip rb hrb
    refine ⟨rb.view, RingBuffer.GetAll_eq_view rb hrbwf, ?_, ?_⟩
    · rw [← deleteEntry_iff]
      constructor
      · intro hnone
        by_contra hd
        have := hkeep ip (fun hex => hd ((huniq ip rb hrb).mp hex))
        simp only at hnone
        rw [this, hrb] at hnone
        cases hnone
      · intro hd
        exact hdel ip ((huniq ip rb hrb).mpr hd)
    · rintro ⟨t, ht, hgt⟩
      have hd : ¬ deleteEntry (now - 60) rb.view = true := by
        rw [deleteEntry_iff]
        intro hall
        have := hall t ht
        omega
      have := hkeep ip (fun hex => hd ((huniq ip rb hrb).mp hex))
      simp only
      rw [this, hrb]
  · intro ip hnone
    by_cases hex : ∃ e ∈ cf.attempts.entries, e.1 = ip ∧ deleteEntry (now - 60) e.2.view = true
    · exact hdel ip hex
    · simp only
      rw [hkeep ip hex, hnone]

/-- One `RecordAndGetConnAttempts` call on a well-formed tracker with a positive capacity: it
succeeds, returns the new occupancy of the key's window, and touches no other key. -/
theorem ConnFilter.record_spec (N : Nat) (hN : 1 ≤ N) (hcap : (N : Int) * 8 ≤ maxAlloc)
    (cf : ConnFilter) (hwf : cf.WF) (hmax : cf.maxAttempts = (N : Int)) (ip : Nat) (now : Int) :
    ∃ cf' rb', cf.RecordAndGetConnAttempts ip now = some (cf', rb'.count) ∧ cf'.WF ∧
      cf'.maxAttempts = (N : Int) ∧ cf'.attempts.lookup ip = some rb' ∧
      (∀ k, k ≠ ip → cf'.attempts.lookup k = cf.attempts.lookup k) ∧
      (∀ rb, cf.attempts.lookup ip = some rb →
        rb'.size = rb.size ∧ rb'.count = min (rb.count + 1) rb.size) ∧
      (cf.attempts.lookup ip = none → rb'.size = N ∧ rb'.count = 1) := by
  cases hl : cf.attempts.lookup ip with
  | some rb =>
    have hrb : rb.WF := (ConnFilter.WF_iff_lookup cf).mp hwf ip rb hl
    obtain ⟨rb', h1, h2, h3, h4⟩ := RingBuffer.Add_count rb now hrb
    refine ⟨{ cf with attempts := cf.attempts.insert ip rb' }, rb', ?_,
      ConnFilter.WF_insert cf ip rb' hwf h2, hmax, AList.lookup_insert _, ?_, ?_, ?_⟩
    · simp [ConnFilter.RecordAndGetConnAttempts, hl, h1, RingBuffer.Len]
    · intro k hk
      exact AList.lookup_insert_ne hk
    · intro rb0 h0
      cases h0
      exact ⟨h3, h4⟩
    · intro h0
      cases h0
  | none =>
    obtain ⟨rb0, hnew, hwf0, hs0, hc0⟩ := NewRingBuffer_pos N hN hcap
    obtain ⟨rb', h1, h2, h3, h4⟩ := RingBuffer.Add_count rb0 now hwf0
    refine ⟨{ cf with attempts := cf.attempts.insert ip rb' }, rb', ?_,
      ConnFilter.WF_insert cf ip rb' hwf h2, hmax, AList.lookup_insert _, ?_, ?_, ?_⟩
    · simp [ConnFilter.RecordAndGetConnAttempts, hl, hmax, hnew, h1, RingBuffer.Len]
    · intro k hk
      exact AList.lookup_insert_ne hk
    · intro rb h0
      cases h0
    · intro _
      refine ⟨h3.trans hs0, ?_⟩
      rw [h4, hc0, hs0]
      omega

/-- A sequence of calls on a well-formed tracker in which the window of `key` currently holds
`c` timestamps (`c = 0` when the key is absent): every call succeeds and the calls for `key`
return `min (c+1) N`, `min (c+2) N`, ... in order. -/
theorem ConnFilter.recordAll_spec (N : Nat) (hN : 1 ≤ N) (hcap : (N : Int) * 8 ≤ maxAlloc)
    (key : Nat) (calls : List (Nat × Int)) :
    ∀ (cf : ConnFilter) (c : Nat), cf.WF → cf.maxAttempts = (N : Int) → c ≤ N →
      ((cf.attempts.lookup key = none ∧ c = 0) ∨
        ∃ rb, cf.attempts.lookup key = some rb ∧ rb.size = N ∧ rb.count = c) →
      ∃ cf' res, cf.recordAll calls = some (cf', res) ∧
        res.map (fun r => r.1) = calls.map (fun r => r.1) ∧
        (res.filter (fun r => r.1 = key)).map (fun r => r.2)
          = (List.range (calls.countP (fun r => r.1 = key))).map (fun j => min (c + j + 1) N) := by
  induction calls with
  | nil =>
    intro cf c _ _ _ _
    exact ⟨cf, [], rfl, rfl, rfl⟩
  | cons call calls ih =>
    intro cf c hwf hmax hc hkey
    obtain ⟨ip, now⟩ := call
    obtain ⟨cf1, rb1, hrec, hwf1, hmax1, hl1, hother, hsome, hnone⟩ :=
      ConnFilter.record_spec N hN hcap cf hwf hmax ip now
    by_cases hip : ip = key
    · subst hip
      have hcount : rb1.size = N ∧ rb1.count = min (c + 1) N := by
        rcases hkey with ⟨h0, hc0⟩ | ⟨rb, h0, hs, hcn⟩
        · obtain ⟨h1, h2⟩ := hnone h0
          exact ⟨h1, by omega⟩
        · obtain ⟨h1, h2⟩ := hsome rb h0
          exact ⟨h1.trans hs, by rw [h2, hs, hcn]⟩
      obtain ⟨cf2, res, hrest, hkeys, hres⟩ :=
        ih cf1 (min (c + 1) N) hwf1 hmax1 (Nat.min_le_right _ _)
          (Or.inr ⟨rb1, hl1, hcount.1, hcount.2⟩)
      refine ⟨cf2, (ip, rb1.count) :: res, ?_, ?_, ?_⟩
      · simp [ConnFilter.recordAll, hrec, hrest]
      · simp [hkeys]
      · simp only [List.filter_cons, decide_True, if_true, List.map_cons, List.countP_cons_of_pos,
          hres, List.range_succ_eq_map, List.map_map]
        rw [hcount.2]
        congr 1
        apply List.map_congr_left
        intro j _
        simp only [Function.comp, Nat.succ_eq_add_one]
        omega
    · have hkey1 : (cf1.attempts.lookup key = none ∧ c = 0) ∨
          ∃ rb, cf1.attempts.lookup key = some rb ∧ rb.size = N ∧ rb.count = c := by
        rw [hother key (Ne.symm hip)]
        exact hkey
      obtain ⟨cf2, res, hrest, hkeys, hres⟩ := ih cf1 c hwf1 hmax1 hc hkey1
      refine ⟨cf2, (ip, rb1.count) :: res, ?_, ?_, ?_⟩
      · simp [ConnFilter.recordAll, hrec, hrest]
      · simp [hkeys]
      · simp only [List.filter_cons, hip, decide_False, Bool.false_eq_true, if_false, hres,
          List.countP_cons_of_neg, not_false_eq_true]

/-- C2, as amended. For every capacity `N >= 1` whose `N * 8` bytes do not exceed `maxAlloc`
(`N <= 2^45` on linux/amd64), every key, and every sequence of calls (for this key or any other
key, with arbitrary clock values) made with no `Tick` in between on a well-formed tracker of
capacity `N` in which the key is absent: every call succeeds and the `k`-th call for the key
returns `min k N`. -/
theorem record_returns_min (N : Nat) (hN : 1 ≤ N) (hcap : (N : Int) * 8 ≤ maxAlloc)
    (cf : ConnFilter) (hwf : cf.WF) (hmax : cf.maxAttempts = (N : Int)) (key : Nat)
    (habs : cf.attempts.lookup key = none) (calls : List (Nat × Int)) :
    ∃ cf' res, cf.recordAll calls = some (cf', res) ∧
      res.map (fun r => r.1) = calls.map (fun r => r.1) ∧
      (res.filter (fun r => r.1 = key)).map (fun r => r.2)
        = (List.range (calls.countP (fun r => r.1 = key))).map (fun j => min (j + 1) N) := by
  obtain ⟨cf', res, h1, h2, h3⟩ :=
    ConnFilter.recordAll_spec N hN hcap key calls cf 0 hwf hmax (Nat.zero_le _)
      (Or.inl ⟨habs, rfl⟩)
  refine ⟨cf', res, h1, h2, ?_⟩
  rw [h3]
  apply List.map_congr_left
  intro j _
  simp

/-- C2, counterexample. On the tracker built by `NewConnFilter(10^14)`, in which key 5 is
absent, the first `RecordAndGetConnAttempts(5)` panics in `make` instead of returning 1. -/
theorem record_capacity_too_large :
    (NewConnFilter 100000000000000).attempts.lookup 5 = none ∧
      (NewConnFilter 100000000000000).RecordAndGetConnAttempts 5 1700000000 = none ∧
      ¬ ∃ cf res, (NewConnFilter 100000000000000).recordAll [(5, 1700000000)] = some (cf, res) ∧
          res.map (fun r => r.2) = [1] := by
  have h : (NewConnFilter 100000000000000).RecordAndGetConnAttempts 5 1700000000 = none := by
    rfl
  refine ⟨rfl, h, ?_⟩
  rintro ⟨cf, res, h0, _⟩
  simp [ConnFilter.recordAll, h] at h0

/-! ## Properties of the connection handling -/

theorem BigEndianUint32_eq (a : IPv4) :
    BigEndianUint32 a
      = 2 ^ 24 * a.b0.val + (2 ^ 16 * a.b1.val + (2 ^ 8 * a.b2.val + a.b3.val)) := by
  have h0 := a.b0.isLt
  have h1 := a.b1.isLt
  have h2 := a.b2.isLt
  have h3 := a.b3.isLt
  unfold BigEndianUint32
  simp only [Nat.shiftLeft_eq]
  rw [Nat.or_comm (a.b3.val), Nat.mul_comm (a.b2.val),
    ← Nat.mul_add_lt_is_or (show a.b3.val < 2 ^ 8 by omega)]
  rw [Nat.or_comm _ (a.b1.val * 2 ^ 16), Nat.mul_comm (a.b1.val),
    ← Nat.mul_add_lt_is_or (show 2 ^ 8 * a.b2.val + a.b3.val < 2 ^ 16 by omega)]
  rw [Nat.or_comm _ (a.b0.val * 2 ^ 24), Nat.mul_comm (a.b0.val),
    ← Nat.mul_add_lt_is_or
      (show 2 ^ 16 * a.b1.val + (2 ^ 8 * a.b2.val + a.b3.val) < 2 ^ 24 by omega)]

/-- C10. One key per distinct address: the key derived from a 4-byte IPv4 address (its bytes
read as a big-endian unsigned 32-bit integer) fits in 32 bits and is injective, so two addresses
have the same key if and only if they are the same address. -/
theorem source_key_injective (a b : IPv4) :
    BigEndianUint32 a < 2 ^ 32 ∧ (BigEndianUint32 a = BigEndianUint32 b ↔ a = b) := by
  have ha0 := a.b0.isLt
  have ha1 := a.b1.isLt
  have ha2 := a.b2.isLt
  have ha3 := a.b3.isLt
  have hb0 := b.b0.isLt
  have hb1 := b.b1.isLt
  have hb2 := b.b2.isLt
  have hb3 := b.b3.isLt
  rw [BigEndianUint32_eq, BigEndianUint32_eq]
  refine ⟨by omega, ?_, ?_⟩
  · intro h
    obtain ⟨a0, a1, a2, a3⟩ := a
    obtain ⟨b0, b1, b2, b3⟩ := b
    simp only at h ha0 ha1 ha2 ha3 hb0 hb1 hb2 hb3
    have e0 : a0 = b0 := Fin.ext (by omega)
    have e1 : a1 = b1 := Fin.ext (by omega)
    have e2 : a2 = b2 := Fin.ext (by omega)
    have e3 : a3 = b3 := Fin.ext (by omega)
    rw [e0, e1, e2, e3]
  · intro h
    rw [h]

theorem writeError_ATTEMPTS_EXCEEDED :
    writeError ATTEMPTS_EXCEEDED = [Event.clientWrite [16], Event.sleep, Event.clientClose] := by
  decide

theorem writeError_MALFORMED_LOGIN :
    writeError MALFORMED_LOGIN = [Event.clientWrite [27], Event.sleep, Event.clientClose] := by
  decide

theorem writeError_NO_RESPONSE :
    writeError NO_RESPONSE = [Event.clientWrite [28], Event.sleep, Event.clientClose] := by
  decide

theorem writeError_REJECTED_SESSION :
    writeError REJECTED_SESSION = [Event.clientWrite [11], Event.sleep, Event.clientClose] := by
  decide

/-- The handler `handleRequest` always starts with the stats update and the first read. -/
theorem handleRequest_take_two (env : Env) (playerIP : String) :
    (handleRequest env playerIP).take 2
      = [Event.statsIncrementConnectionsOpened, Event.clientRead] := by
  simp [handleRequest]

/-- The handler `handleRequest` never writes the ATTEMPTS_EXCEEDED byte to the client. -/
theorem handleRequest_no_attempts_exceeded (env : Env) (playerIP : String) :
    Event.clientWrite [16] ∉ handleRequest env playerIP := by
  unfold handleRequest
  simp only [writeError_REJECTED_SESSION, writeError_MALFORMED_LOGIN, writeError_NO_RESPONSE,
    closeConnectionsFirst]
  repeat' split
  all_goals simp

/-- C4. Admission rule: for every connection from an IPv4 source, when
`RecordAndGetConnAttempts` returns a count for the source's key, `handleNewConnection` writes the
single byte 16 (ATTEMPTS_EXCEEDED), closes, and never reaches the first read exactly when the
count is at least `config.MaxAttempts`; below `MaxAttempts` it runs `handleRequest` (stats update,
then the first read) and the byte 16 is never written. -/
theorem admission_rule (cf : ConnFilter) (config : Config) (ipv4 : IPv4) (now : Int) (env : Env)
    (cf1 : ConnFilter) (attempts : Nat)
    (hrec : cf.RecordAndGetConnAttempts (BigEndianUint32 ipv4) now = some (cf1, attempts)) :
    ∃ evs, handleNewConnection cf config (some ipv4) now env = some (cf1, evs) ∧
      ((attempts : Int) ≥ config.MaxAttempts →
        evs = [Event.clientWrite [16], Event.sleep, Event.clientClose]) ∧
      ((attempts : Int) < config.MaxAttempts →
        evs = handleRequest env (env.ipString ipv4) ∧
        evs.take 2 = [Event.statsIncrementConnectionsOpened, Event.clientRead] ∧
        Event.clientWrite [16] ∉ evs) ∧
      ((attempts : Int) ≥ config.MaxAttempts ↔
        (Event.clientWrite [16] ∈ evs ∧ Event.clientRead ∉ evs)) := by
  by_cases h : (attempts : Int) ≥ config.MaxAttempts
  · refine ⟨writeError ATTEMPTS_EXCEEDED, ?_, ?_, ?_, ?_⟩
    · simp [handleNewConnection, hrec, h]
    · intro _; exact writeError_ATTEMPTS_EXCEEDED
    · intro h'; omega
    · rw [writeError_ATTEMPTS_EXCEEDED]
      simp [h]
  · refine ⟨handleRequest env (env.ipString ipv4), ?_, ?_, ?_, ?_⟩
    · simp [handleNewConnection, hrec, h]
    · intro h'; exact absurd h' h
    · intro _
      exact ⟨rfl, handleRequest_take_two _ _, handleRequest_no_attempts_exceeded _ _⟩
    · constructor
      · intro h'; exact absurd h' h
      · intro h'
        exact absurd h'.1 (handleRequest_no_attempts_exceeded _ _)

/-- One connection from an IPv4 source whose window currently holds `c` timestamps (`c = 0`
when the key is absent), on a well-formed tracker whose capacity `N >= 1` is also the configured
maximum: the handler completes, rejects when `c + 1 >= N` and runs `handleRequest` otherwise,
and the window then holds `min (c+1) N` timestamps. -/
theorem handleNewConnection_same_key (N : Nat) (hN : 1 ≤ N)
    (hcap : (N : Int) * 8 ≤ maxAlloc) (cf : ConnFilter) (config : Config)
    (hcfg : config.MaxAttempts = (N : Int)) (hwf : cf.WF) (hmax : cf.maxAttempts = (N : Int))
    (ipv4 : IPv4) (now : Int) (env : Env) (c : Nat)
    (hkey : (cf.attempts.lookup (BigEndianUint32 ipv4) = none ∧ c = 0) ∨
      ∃ rb, cf.attempts.lookup (BigEndianUint32 ipv4) = some rb ∧ rb.size = N ∧ rb.count = c) :
    ∃ cf', handleNewConnection cf config (some ipv4) now env
        = some (cf', if N ≤ c + 1 then writeError ATTEMPTS_EXCEEDED
                     else handleRequest env (env.ipString ipv4)) ∧
      cf'.WF ∧ cf'.maxAttempts = (N : Int) ∧
      ∃ rb, cf'.attempts.lookup (BigEndianUint32 ipv4) = some rb ∧ rb.size = N ∧
        rb.count = min (c + 1) N := by
  obtain ⟨cf1, rb1, hrec, hwf1, hmax1, hl1, _, hsome, hnone⟩ :=
    ConnFilter.record_spec N hN hcap cf hwf hmax (BigEndianUint32 ipv4) now
  have hcount : rb1.size = N ∧ rb1.count = min (c + 1) N := by
    rcases hkey with ⟨h0, hc0⟩ | ⟨rb, h0, hs, hcn⟩
    · obtain ⟨h1, h2⟩ := hnone h0
      exact ⟨h1, by omega⟩
    · obtain ⟨h1, h2⟩ := hsome rb h0
      exact ⟨h1.trans hs, by rw [h2, hs, hcn]⟩
  refine ⟨cf1, ?_, hwf1, hmax1, rb1, hl1, hcount.1, hcount.2⟩
  simp only [handleNewConnection, hrec, Option.bind_eq_bind, Option.some_bind, hcfg, hcount.2]
  by_cases h : N ≤ c + 1
  · have h' : ((min (c + 1) N : Nat) : Int) ≥ (N : Int) := by omega
    rw [if_pos h', if_pos h]
    rfl
  · have h' : ¬ ((min (c + 1) N : Nat) : Int) ≥ (N : Int) := by omega
    rw [if_neg h', if_neg h]
    rfl

/-- C5, as amended. With `MaxAttempts = 3` and a tracker built by `NewConnFilter(3)`, when the
same IPv4 source connects 4 times starting from the empty tracker with no `Tick` in between, the
first 2 connections reach `handleRequest` and the 3rd and the 4th are rejected with the
ATTEMPTS_EXCEEDED code. -/
theorem admission_scenario_max3 (config : Config) (ipv4 : IPv4) (t1 t2 t3 t4 : Int)
    (e1 e2 e3 e4 : Env) :
    ∃ cf, serve (NewConnFilter 3) { config with MaxAttempts := 3 }
        [⟨some ipv4, t1, e1⟩, ⟨some ipv4, t2, e2⟩, ⟨some ipv4, t3, e3⟩, ⟨some ipv4, t4, e4⟩]
      = some (cf, [handleRequest e1 (e1.ipString ipv4), handleRequest e2 (e2.ipString ipv4),
          [Event.clientWrite [16], Event.sleep, Event.clientClose],
          [Event.clientWrite [16], Event.sleep, Event.clientClose]]) := by
  have hwf0 : (NewConnFilter 3).WF := by decide
  obtain ⟨cf1, h1, hwf1, hmax1, rb1, hl1, hs1, hc1⟩ :=
    handleNewConnection_same_key 3 (by decide) (by decide) (NewConnFilter 3)
      { config with MaxAttempts := 3 } rfl hwf0 rfl ipv4 t1 e1 0 (Or.inl ⟨rfl, rfl⟩)
  obtain ⟨cf2, h2, hwf2, hmax2, rb2, hl2, hs2, hc2⟩ :=
    handleNewConnection_same_key 3 (by decide) (by decide) cf1
      { config with MaxAttempts := 3 } rfl hwf1 hmax1 ipv4 t2 e2 1 (Or.inr ⟨rb1, hl1, hs1, hc1⟩)
  obtain ⟨cf3, h3, hwf3, hmax3, rb3, hl3, hs3, hc3⟩ :=
    handleNewConnection_same_key 3 (by decide) (by decide) cf2
      { config with MaxAttempts := 3 } rfl hwf2 hmax2 ipv4 t3 e3 2 (Or.inr ⟨rb2, hl2, hs2, hc2⟩)
  obtain ⟨cf4, h4, _, _, _⟩ :=
    handleNewConnection_same_key 3 (by decide) (by decide) cf3
      { config with MaxAttempts := 3 } rfl hwf3 hmax3 ipv4 t4 e4 3 (Or.inr ⟨rb3, hl3, hs3, hc3⟩)
  refine ⟨cf4, ?_⟩
  simp only [serve, h1, h2, h3, h4, Option.bind_eq_bind, Option.some_bind]
  simp [writeError_ATTEMPTS_EXCEEDED]

/-- C5, counterexample. With `MaxAttempts = 3`, four connections from 10.0.0.1 on a fresh
tracker: it is not the case that the first three reach `handleRequest` and the fourth is
rejected, because the third is already rejected. -/
theorem admission_scenario_third_rejected :
    ¬ ∃ cf r1 r2 r3 r4,
        serve (NewConnFilter 3) exampleConfig [exampleConn, exampleConn, exampleConn, exampleConn]
          = some (cf, [r1, r2, r3, r4]) ∧
        Event.statsIncrementConnectionsOpened ∈ r1 ∧
        Event.statsIncrementConnectionsOpened ∈ r2 ∧
        Event.statsIncrementConnectionsOpened ∈ r3 ∧
        r4 = writeError ATTEMPTS_EXCEEDED := by
  rintro ⟨cf, r1, r2, r3, r4, h, _, _, h3, _⟩
  have hs : (serve (NewConnFilter 3) exampleConfig
      [exampleConn, exampleConn, exampleConn, exampleConn]).map (fun r => r.2)
      = some [handleRequest exampleEnv "10.0.0.1", handleRequest exampleEnv "10.0.0.1",
          [Event.clientWrite [16], Event.sleep, Event.clientClose],
          [Event.clientWrite [16], Event.sleep, Event.clientClose]] := by
    decide
  rw [h] at hs
  simp only [Option.map_some', Option.some.injEq, List.cons.injEq] at hs
  obtain ⟨_, _, e3, _⟩ := hs
  rw [e3] at h3
  revert h3
  decide

/-- C7, counterexample. A client at 10.0.0.1 sends the handshake byte 14 and the backend dial
fails: the byte written to the client is 28 (NO_RESPONSE), and the byte 8 (UNABLE_TO_CONNECT)
is not written. -/
theorem backend_unreachable_writes_no_response :
    exampleEnv.dialOk = false ∧
      handleRequest exampleEnv "10.0.0.1"
        = [Event.statsIncrementConnectionsOpened, Event.clientRead, Event.dial,
            Event.clientWrite [28], Event.sleep, Event.clientClose] ∧
      Event.clientWrite [byte UNABLE_TO_CONNECT] ∉ handleRequest exampleEnv "10.0.0.1" := by
  decide

/-- C7, as amended. For every connection whose handshake was accepted (at most one byte read,
byte 0 equal to 14, player address valid), if `connectToServer` returns an error, the single
byte written to the client is the NO_RESPONSE code 28, the client connection is then closed,
and neither `receiveAndWrite` pump is started. -/
theorem backend_unreachable (env : Env) (playerIP : String) (data : List Nat) (ipv4 : IPv4)
    (hread : env.firstRead = ReadResult.ok data) (hn : ¬ data.length > 1)
    (hop : (bufferAfterRead data).getD 0 0 = 14) (hip : env.parseIPv4 playerIP = some ipv4)
    (hdial : env.dialOk = false) :
    handleRequest env playerIP
        = [Event.statsIncrementConnectionsOpened, Event.clientRead, Event.dial,
            Event.clientWrite [28], Event.sleep, Event.clientClose] ∧
      byte NO_RESPONSE = 28 ∧
      ∀ b, Event.goReceiveAndWrite b ∉ handleRequest env playerIP := by
  have h : handleRequest env playerIP
      = [Event.statsIncrementConnectionsOpened, Event.clientRead, Event.dial,
          Event.clientWrite [28], Event.sleep, Event.clientClose] := by
    simp only [handleRequest, hread, hn, hop, hip, hdial, writeError_NO_RESPONSE]
    simp
  refine ⟨h, by decide, ?_⟩
  intro b
  rw [h]
  simp

/-- C8. Handshake decision: for every successful first read of `n` bytes (`1 <= n <= 10`),
when `n = 1` and byte 0 is 14 (and the player address passed by the caller is a valid IPv4
string) nothing is written to the client and the backend dial is the next action; when `n >= 2`
the connection is rejected with the MALFORMED_LOGIN byte 27, whatever the bytes are; and when
byte 0 is not 14 it is rejected with the MALFORMED_LOGIN byte 27. -/
theorem handshake_decision (env : Env) (playerIP : String) (data : List Nat)
    (hread : env.firstRead = ReadResult.ok data) (h1 : 1 ≤ data.length)
    (h10 : data.length ≤ 10) :
    (data.length = 1 → (bufferAfterRead data).getD 0 0 = 14 →
      ∀ ipv4, env.parseIPv4 playerIP = some ipv4 →
        (handleRequest env playerIP).take 3
          = [Event.statsIncrementConnectionsOpened, Event.clientRead, Event.dial]) ∧
    (2 ≤ data.length →
      handleRequest env playerIP
        = [Event.statsIncrementConnectionsOpened, Event.clientRead,
            Event.clientWrite [27], Event.sleep, Event.clientClose]) ∧
    ((bufferAfterRead data).getD 0 0 ≠ 14 →
      handleRequest env playerIP
        = [Event.statsIncrementConnectionsOpened, Event.clientRead,
            Event.clientWrite [27], Event.sleep, Event.clientClose]) := by
  refine ⟨?_, ?_, ?_⟩
  · intro hn hop ipv4 hip
    have hn' : ¬ data.length > 1 := by omega
    simp only [handleRequest, hread, hn', hop, hip]
    simp
  · intro hn
    have hn' : data.length > 1 := by omega
    simp only [handleRequest, hread, hn', writeError_MALFORMED_LOGIN]
    simp
  · intro hop
    by_cases hn' : data.length > 1
    · simp only [handleRequest, hread, hn', writeError_MALFORMED_LOGIN]
      simp
    · simp only [handleRequest, hread]
      rw [if_neg hn', if_pos hop, writeError_MALFORMED_LOGIN]
      rfl

/-! ## Concrete instances -/

/-- Capacity 3 and the timestamps 1..5: the snapshot is the last three, oldest first. -/
theorem ring_overwrite_correctness_witness :
    ∃ rb0 rb, NewRingBuffer 3 = some rb0 ∧ rb0.addAll [1, 2, 3, 4, 5] = some rb ∧
      rb.GetAll = some [3, 4, 5] := by
  obtain ⟨rb0, rb, h1, h2, h3, _, _⟩ :=
    ring_overwrite_correctness 3 (by decide) (by decide) [1, 2, 3, 4, 5]
  exact ⟨rb0, rb, h1, h2, h3⟩

/-- Capacity 2, key 5 absent at first: five calls for key 5 with old and new clock values,
interleaved with calls for key 6, return 1, 2, 2, 2, 2 for key 5. -/
theorem record_returns_min_witness :
    ∃ cf res,
      (NewConnFilter 2).recordAll
          [(5, 100), (6, 100), (5, 101), (5, 3000), (6, 1), (5, 3001), (5, 3002)]
        = some (cf, res) ∧
      (res.filter (fun r => r.1 = 5)).map (fun r => r.2) = [1, 2, 2, 2, 2] := by
  obtain ⟨cf, res, h1, _, h3⟩ :=
    record_returns_min 2 (by decide) (by decide) (NewConnFilter 2) (by decide) rfl 5 rfl
      [(5, 100), (6, 100), (5, 101), (5, 3000), (6, 1), (5, 3001), (5, 3002)]
  exact ⟨cf, res, h1, h3⟩

/-- The example tracker at time 1030: key 7 (full window, two stale timestamps and one recent)
survives with its window, key 9 (only a stale timestamp) is removed, and the untracked key 8
stays untracked. -/
theorem tick_eviction_exact_witness :
    ∃ cf, exampleFilter.Tick 1030 = some cf ∧
      cf.attempts.lookup 7
        = some { buffer := [1000, 10, 20], size := 3, head := 1, count := 3 } ∧
      cf.attempts.lookup 9 = none ∧ cf.attempts.lookup 8 = none := by
  obtain ⟨cf, h1, h2, h3⟩ :=
    tick_eviction_exact exampleFilter 1030 (by decide) (by decide) (by decide)
  refine ⟨cf, h1, ?_, ?_, ?_⟩
  · obtain ⟨ts, hts, _, hkeep⟩ :=
      h2 7 { buffer := [1000, 10, 20], size := 3, head := 1, count := 3 } (by decide)
    have hts' : ts = [10, 20, 1000] := by
      have h0 : RingBuffer.GetAll { buffer := [1000, 10, 20], size := 3, head := 1, count := 3 }
          = some [10, 20, 1000] := by decide
      rw [h0] at hts
      exact (Option.some.inj hts).symm
    exact hkeep ⟨1000, by rw [hts']; decide, by decide⟩
  · obtain ⟨ts, hts, hiff, _⟩ :=
      h2 9 { buffer := [5, 0, 0], size := 3, head := 0, count := 1 } (by decide)
    have hts' : ts = [5] := by
      have h0 : RingBuffer.GetAll { buffer := [5, 0, 0], size := 3, head := 0, count := 1 }
          = some [5] := by decide
      rw [h0] at hts
      exact (Option.some.inj hts).symm
    apply hiff.mpr
    rw [hts']
    decide
  · exact h3 8 (by decide)

/-- The first connection from 10.0.0.1 with `MaxAttempts = 3` gets the count 1 and runs
`handleRequest`; with `MaxAttempts = 1` the same count is rejected with the byte 16. -/
theorem admission_rule_witness :
    (∃ cf evs, handleNewConnection (NewConnFilter 3) exampleConfig (some exampleAddr) 1700000000
        exampleEnv = some (cf, evs) ∧ evs = handleRequest exampleEnv "10.0.0.1") ∧
    (∃ cf evs, handleNewConnection (NewConnFilter 1) { exampleConfig with MaxAttempts := 1 }
        (some exampleAddr) 1700000000 exampleEnv = some (cf, evs) ∧
        evs = [Event.clientWrite [16], Event.sleep, Event.clientClose]) := by
  constructor
  · obtain ⟨evs, h1, _, h3, _⟩ :=
      admission_rule (NewConnFilter 3) exampleConfig exampleAddr 1700000000 exampleEnv
        { maxAttempts := 3
          attempts := AList.insert 167772161
            { buffer := [1700000000, 0, 0], size := 3, head := 0, count := 1 } ∅ }
        1 rfl
    exact ⟨_, evs, h1, (h3 (by decide)).1⟩
  · obtain ⟨evs, h1, h2, _, _⟩ :=
      admission_rule (NewConnFilter 1) { exampleConfig with MaxAttempts := 1 } exampleAddr
        1700000000 exampleEnv
        { maxAttempts := 1
          attempts := AList.insert 167772161
            { buffer := [1700000000], size := 1, head := 0, count := 1 } ∅ }
        1 rfl
    exact ⟨_, evs, h1, h2 (by decide)⟩

/-- The example client (handshake byte 14, backend down) receives the byte 28 and no pump is
started. -/
theorem backend_unreachable_witness :
    handleRequest exampleEnv "10.0.0.1"
        = [Event.statsIncrementConnectionsOpened, Event.clientRead, Event.dial,
            Event.clientWrite [28], Event.sleep, Event.clientClose] ∧
      byte NO_RESPONSE = 28 ∧
      ∀ b, Event.goReceiveAndWrite b ∉ handleRequest exampleEnv "10.0.0.1" :=
  backend_unreachable exampleEnv "10.0.0.1" [14] exampleAddr rfl (by decide) (by decide) rfl rfl

/-- The example client sends the single byte 14: the dial is the next action. A client sending
the two bytes 14, 0 is rejected with the byte 27. -/
theorem handshake_decision_witness :
    (handleRequest exampleEnv "10.0.0.1").take 3
        = [Event.statsIncrementConnectionsOpened, Event.clientRead, Event.dial] ∧
      handleRequest { exampleEnv with firstRead := ReadResult.ok [14, 0] } "10.0.0.1"
        = [Event.statsIncrementConnectionsOpened, Event.clientRead,
            Event.clientWrite [27], Event.sleep, Event.clientClose] :=
  ⟨(handshake_decision exampleEnv "10.0.0.1" [14] rfl (by decide) (by decide)).1 rfl
      (by decide) exampleAddr rfl,
    (handshake_decision { exampleEnv with firstRead := ReadResult.ok [14, 0] } "10.0.0.1" [14, 0]
      rfl (by decide) (by decide)).2.1 (by decide)⟩

end RspsProxy
